import Mathlib

/-!
Verification of the N×N×N Rubiks-cube move engine.

The definitions below are a shallow embedding of the TypeScript source:

* `src/constants.ts` — `isSurface`;
* `src/components/RubiksCube.tsx` — lattice generation (`initialPositions`),
  slice selection (`startMove`), the per-frame animation clamp (`useFrame`),
  the commit (`finishMove` and `snapTransform`), sticker assignment
  (`isActive`), and the gesture translator (`handleArrowClick`);
* the application component — `handleShuffle`, `handleSolve`,
  `handleDirectMove`, `onMoveComplete`.

Conventions of the embedding:
* Coordinates are exact rationals (`ℚ`); the float drift that the snapping
  code guards against does not exist here, so the snapping functions are
  embedded literally and their action on exact values is proved, not assumed.
* Angles are measured in units of π radians, so the quarter-turn threshold
  `Math.PI / 2` of the source becomes `1/2` and `snapAngle`'s divisor
  `Math.PI / 2` likewise becomes `1/2`.
* A piece's persisted orientation (`THREE.Quaternion` in the source) is
  represented by the exact integer rotation matrix it denotes once a move has
  committed; a committed turn composes the pivot's quarter-turn rotation with
  the stored orientation, exactly as reparenting does in the source.
* `Math.round` is `round` (round half towards +∞ on ties, as in JavaScript),
  `Math.floor` is `Int.floor`, and `Math.random()` values are supplied by an
  explicit stream `rand : ℕ → ℚ` of samples.
-/

/-- The three turn axes, `'x' | 'y' | 'z'` in `types.ts`. -/
inductive Axis where
  | x
  | y
  | z
deriving DecidableEq, Repr

/-- A quarter-turn command, `Move` in `types.ts`: an axis, a 0-based layer
index along that axis, and a direction (`1 | -1`). -/
structure Move where
  axis : Axis
  layer : ℤ
  direction : ℤ
deriving DecidableEq, Repr

/-- Well-formedness of a move's direction: the source type is `1 | -1`. -/
def WFMove (m : Move) : Prop := m.direction = 1 ∨ m.direction = -1

instance (m : Move) : Decidable (WFMove m) := by
  unfold WFMove
  infer_instance

/-- A 3×3 integer matrix, used to represent a piece's exact orientation. -/
structure M3 where
  m00 : ℤ
  m01 : ℤ
  m02 : ℤ
  m10 : ℤ
  m11 : ℤ
  m12 : ℤ
  m20 : ℤ
  m21 : ℤ
  m22 : ℤ
deriving DecidableEq, Repr

/-- Identity orientation, `new THREE.Quaternion()` in the source. -/
def idM3 : M3 := ⟨1, 0, 0, 0, 1, 0, 0, 0, 1⟩

/-- Matrix product; composing rotations. -/
def M3.mul (A B : M3) : M3 :=
  ⟨A.m00 * B.m00 + A.m01 * B.m10 + A.m02 * B.m20,
   A.m00 * B.m01 + A.m01 * B.m11 + A.m02 * B.m21,
   A.m00 * B.m02 + A.m01 * B.m12 + A.m02 * B.m22,
   A.m10 * B.m00 + A.m11 * B.m10 + A.m12 * B.m20,
   A.m10 * B.m01 + A.m11 * B.m11 + A.m12 * B.m21,
   A.m10 * B.m02 + A.m11 * B.m12 + A.m12 * B.m22,
   A.m20 * B.m00 + A.m21 * B.m10 + A.m22 * B.m20,
   A.m20 * B.m01 + A.m21 * B.m11 + A.m22 * B.m21,
   A.m20 * B.m02 + A.m21 * B.m12 + A.m22 * B.m22⟩

/-- Determinant of a 3×3 integer matrix. -/
def M3.detVal (A : M3) : ℤ :=
  A.m00 * (A.m11 * A.m22 - A.m12 * A.m21)
    - A.m01 * (A.m10 * A.m22 - A.m12 * A.m20)
    + A.m02 * (A.m10 * A.m21 - A.m11 * A.m20)

/-- The six signed unit row vectors. -/
def unitRows : List (ℤ × ℤ × ℤ) :=
  [(1, 0, 0), (-1, 0, 0), (0, 1, 0), (0, -1, 0), (0, 0, 1), (0, 0, -1)]

/-- Build a matrix from three rows. -/
def rowsToM3 (r0 r1 r2 : ℤ × ℤ × ℤ) : M3 :=
  ⟨r0.1, r0.2.1, r0.2.2, r1.1, r1.2.1, r1.2.2, r2.1, r2.2.1, r2.2.2⟩

/-- The 24 axis-aligned cube rotations: signed permutation matrices of
determinant 1. -/
def rot24 : List M3 :=
  (unitRows.flatMap fun r0 => unitRows.flatMap fun r1 => unitRows.map fun r2 =>
    rowsToM3 r0 r1 r2).filter (fun A => A.detVal == 1)

/-- The exact rotation matrix of a quarter turn of direction `d` about an
axis: `cos (d·π/2) = 0`, `sin (d·π/2) = d` for `d = ±1`.  This is the
orientation effect of the pivot rotation `setRotationFromAxisAngle(axis,
(π/2)·direction)` in `finishMove`. -/
def rotMat (a : Axis) (d : ℤ) : M3 :=
  match a with
  | Axis.x => ⟨1, 0, 0, 0, 0, -d, 0, d, 0⟩
  | Axis.y => ⟨0, 0, d, 0, 1, 0, -d, 0, 0⟩
  | Axis.z => ⟨0, -d, 0, d, 0, 0, 0, 0, 1⟩

/-- The exact action of the same quarter turn on a position triple. -/
def rotCoords (a : Axis) (d : ℤ) (p : ℚ × ℚ × ℚ) : ℚ × ℚ × ℚ :=
  match a with
  | Axis.x => (p.1, -(d : ℚ) * p.2.2, (d : ℚ) * p.2.1)
  | Axis.y => ((d : ℚ) * p.2.2, p.2.1, -(d : ℚ) * p.1)
  | Axis.z => (-(d : ℚ) * p.2.1, (d : ℚ) * p.1, p.2.2)

/-- One visible cube piece, the element type of `initialPositions` in
`RubiksCube.tsx`: current coordinates `x,y,z`, immutable `initialX/Y/Z`, and
the persisted orientation `q`. -/
structure Cubie where
  id : ℕ
  x : ℚ
  y : ℚ
  z : ℚ
  initialX : ℚ
  initialY : ℚ
  initialZ : ℚ
  q : M3
deriving DecidableEq, Repr

/-- `isSurface` from `constants.ts`: a lattice point is on the surface iff
some coordinate's absolute value is within `0.01` of the limit `(size-1)/2`. -/
def isSurface (x y z : ℚ) (size : ℕ) : Bool :=
  let limit := ((size : ℚ) - 1) / 2
  let epsilon : ℚ := 1 / 100
  decide (|(|x|) - limit| < epsilon) || decide (|(|y|) - limit| < epsilon) ||
    decide (|(|z|) - limit| < epsilon)

/-- The triple loop of `initialPositions`: all surface lattice coordinates in
generation order. -/
def surfaceCoords (size : ℕ) : List (ℚ × ℚ × ℚ) :=
  (List.range size).flatMap fun x =>
    (List.range size).flatMap fun y =>
      (List.range size).flatMap fun z =>
        let offset := ((size : ℚ) - 1) / 2
        let lx := (x : ℚ) - offset
        let ly := (y : ℚ) - offset
        let lz := (z : ℚ) - offset
        if isSurface lx ly lz size then [(lx, ly, lz)] else []

/-- One generated piece: current and initial coordinates both start at the
lattice point, orientation starts at the identity. -/
def mkCubie (i : ℕ) (p : ℚ × ℚ × ℚ) : Cubie :=
  ⟨i, p.1, p.2.1, p.2.2, p.1, p.2.1, p.2.2, idM3⟩

/-- `initialPositions` from `RubiksCube.tsx`: surface pieces with consecutive
ids in generation order. -/
def initialCubies (size : ℕ) : List Cubie :=
  (surfaceCoords size).enum.map fun ip => mkCubie ip.1 ip.2

/-- The slice test of `startMove`: a piece is in the rotating slice iff its
current coordinate along the move's axis is within `0.25` of
`move.layer - (size-1)/2`. -/
def inSlice (size : ℕ) (m : Move) (c : Cubie) : Bool :=
  let offset := ((size : ℚ) - 1) / 2
  let coordinateValue := (m.layer : ℚ) - offset
  match m.axis with
  | Axis.x => decide (|c.x - coordinateValue| < 1 / 4)
  | Axis.y => decide (|c.y - coordinateValue| < 1 / 4)
  | Axis.z => decide (|c.z - coordinateValue| < 1 / 4)

/-- The position snap of `snapTransform` (size-parameterised variant): even
sizes snap to half-integers via `Math.round(v - 0.5 + 0.001) + 0.5`, odd
sizes to integers via `Math.round(v + 0.001)`. -/
def snapCoord (size : ℕ) (v : ℚ) : ℚ :=
  if size % 2 = 0 then ((round (v - 1 / 2 + 1 / 1000) : ℤ) : ℚ) + 1 / 2
  else ((round (v + 1 / 1000) : ℤ) : ℚ)

/-- The Euler-angle snap of `snapTransform`:
`Math.round(angle / (π/2)) * (π/2)`, with angles in units of π. -/
def snapAngle (angle : ℚ) : ℚ :=
  ((round (angle / (1 / 2)) : ℤ) : ℚ) * (1 / 2)

/-- A piece's continuous transform as `snapTransform` sees it: a position and
an Euler-angle triple (angles in units of π). -/
structure PieceTransform where
  px : ℚ
  py : ℚ
  pz : ℚ
  ex : ℚ
  ey : ℚ
  ez : ℚ
deriving DecidableEq, Repr

/-- `snapTransform` from `RubiksCube.tsx`: snap each position coordinate and
each Euler angle independently. -/
def snapTransform (size : ℕ) (t : PieceTransform) : PieceTransform :=
  ⟨snapCoord size t.px, snapCoord size t.py, snapCoord size t.pz,
   snapAngle t.ex, snapAngle t.ey, snapAngle t.ez⟩

/-- The per-frame pivot rotation of `useFrame` (in units of π): once
`progress ≥ π/2` the rotation is forced to exactly `(π/2)·direction`,
otherwise it is `progress·direction`. -/
def frameRotation (progress : ℚ) (direction : ℤ) : ℚ :=
  if progress ≥ 1 / 2 then (1 / 2) * (direction : ℚ)
  else progress * (direction : ℚ)

/-- The committed effect of a quarter turn on a position triple: the pivot
rotation at exactly `(π/2)·direction`, followed by the position part of
`snapTransform` (`finishMove` reparents and then snaps). -/
def commitPos (size : ℕ) (a : Axis) (d : ℤ) (p : ℚ × ℚ × ℚ) : ℚ × ℚ × ℚ :=
  let r := rotCoords a d p
  (snapCoord size r.1, snapCoord size r.2.1, snapCoord size r.2.2)

/-- The committed effect of a move on one piece (`finishMove`): pieces in the
slice get the quarter-turn applied to their position (then snapped) and the
quarter-turn rotation composed onto their orientation; other pieces are
untouched.  `id` and the initial coordinates are never written. -/
def commitCubie (size : ℕ) (m : Move) (c : Cubie) : Cubie :=
  if inSlice size m c then
    let p := commitPos size m.axis m.direction (c.x, c.y, c.z)
    { c with
      x := p.1, y := p.2.1, z := p.2.2,
      q := M3.mul (rotMat m.axis m.direction) c.q }
  else c

/-- A whole committed move on the piece store. -/
def applyMove (size : ℕ) (m : Move) (s : List Cubie) : List Cubie :=
  s.map (commitCubie size m)

/-- A sequence of committed moves, first move first. -/
def applyMoves (size : ℕ) (ms : List Move) (s : List Cubie) : List Cubie :=
  ms.foldl (fun st m => applyMove size m st) s

/-- The body of `handleSolve`'s map: same axis and layer, direction negated. -/
def negMove (m : Move) : Move :=
  { m with direction := m.direction * -1 }

/-- `handleSolve`'s generated queue: the history reversed, each direction
negated. -/
def handleSolveMoves (history : List Move) : List Move :=
  history.reverse.map negMove

/-- One full trip of a queued move through `startMove`/`finishMove`/
`onMoveComplete`: if the slice selector finds zero pieces the move is skipped
and completes instantly; either way the completion callback pops the queue. -/
def runQueuedMove (size : ℕ) (cubies : List Cubie) (queue : List Move) :
    List Cubie × List Move :=
  match queue with
  | [] => (cubies, [])
  | m :: rest =>
    if (cubies.filter fun c => inSlice size m c).length = 0 then (cubies, rest)
    else (applyMove size m cubies, rest)

/-- The application state touched by shuffle/solve/manual input. -/
structure AppState where
  moveQueue : List Move
  history : List Move
  isShaking : Bool
  activeHint : Option Move
deriving DecidableEq, Repr

/-- `handleDirectMove` from the application component: rejected while shaking
or while the queue is non-empty; otherwise resolves an active hint and then
enqueues the move (appending it to the history except on a hint-matching
undo, which pops the history instead). -/
def handleDirectMove (st : AppState) (move : Move) : AppState :=
  if st.isShaking = true ∨ st.moveQueue.length > 0 then st
  else
    match st.activeHint with
    | some hint =>
      if move.axis = hint.axis ∧ move.layer = hint.layer then
        if move.direction = hint.direction then
          { st with
            activeHint := none, history := st.history.dropLast,
            moveQueue := [move] }
        else
          { st with
            activeHint := none, moveQueue := [move],
            history := st.history ++ [move] }
      else
        { st with
          activeHint := none, moveQueue := [move],
          history := st.history ++ [move] }
    | none =>
      { st with moveQueue := [move], history := st.history ++ [move] }

/-- The number of moves one shuffle generates:
`Math.max(25, cubeSize * 2)`. -/
def shuffleCount (cubeSize : ℕ) : ℕ := max 25 (cubeSize * 2)

/-- Indexing `['x','y','z']` by `Math.floor(Math.random()*3)`; the sample is
in `[0,1)` so the index is 0, 1 or 2. -/
def axisOfIndex : ℤ → Axis
  | 0 => Axis.x
  | 1 => Axis.y
  | _ => Axis.z

/-- One generated shuffle move from three random samples. -/
def shuffleMove (cubeSize : ℕ) (r1 r2 r3 : ℚ) : Move :=
  { axis := axisOfIndex ⌊r1 * 3⌋
    layer := ⌊r2 * (cubeSize : ℚ)⌋
    direction := if r3 > 1 / 2 then 1 else -1 }

/-- The move list generated by `handleShuffle`'s loop, consuming three random
samples per iteration. -/
def shuffleMoves (cubeSize : ℕ) (rand : ℕ → ℚ) : List Move :=
  (List.range (shuffleCount cubeSize)).map fun i =>
    shuffleMove cubeSize (rand (3 * i)) (rand (3 * i + 1)) (rand (3 * i + 2))

/-- `handleShuffle` from the application component: a no-op while the queue
is non-empty; otherwise appends the generated moves to both the queue and the
history, sets the busy flag and clears any hint. -/
def handleShuffle (cubeSize : ℕ) (rand : ℕ → ℚ) (st : AppState) : AppState :=
  if st.moveQueue.length > 0 then st
  else
    { st with
      isShaking := true, activeHint := none,
      moveQueue := st.moveQueue ++ shuffleMoves cubeSize rand,
      history := st.history ++ shuffleMoves cubeSize rand }

/-- A world-space vector (`THREE.Vector3`). -/
structure V3 where
  vx : ℚ
  vy : ℚ
  vz : ℚ
deriving DecidableEq, Repr

/-- Cross product, `crossVectors` in `handleArrowClick`. -/
def crossV3 (a b : V3) : V3 :=
  ⟨a.vy * b.vz - a.vz * b.vy, a.vz * b.vx - a.vx * b.vz,
   a.vx * b.vy - a.vy * b.vx⟩

/-- Component of a vector along a cardinal axis, `rotationAxisVec[axis]`. -/
def axisCompV3 (a : Axis) (v : V3) : ℚ :=
  match a with
  | Axis.x => v.vx
  | Axis.y => v.vy
  | Axis.z => v.vz

/-- The sequential largest-component scan of `handleArrowClick`: start at
axis `x` with running maximum 0, and move to `y` then `z` only on a strict
improvement. -/
def pickAxis (r : V3) : Axis × ℚ :=
  let s0 : Axis × ℚ := (Axis.x, 0)
  let s1 := if |r.vx| > s0.2 then (Axis.x, |r.vx|) else s0
  let s2 := if |r.vy| > s1.2 then (Axis.y, |r.vy|) else s1
  if |r.vz| > s2.2 then (Axis.z, |r.vz|) else s2

/-- JavaScript `Math.sign` on rationals. -/
def jsSign (v : ℚ) : ℤ :=
  if 0 < v then 1 else if v < 0 then -1 else 0

/-- The move computed by `handleArrowClick` from a selection's world normal,
the camera-relative intended swipe vector, and the selected piece's
coordinates: axis from the largest cross-product component, direction from
`Math.sign(...) || 1`, layer from `Math.round(coord + offset)`. -/
def handleArrowClickMove (size : ℕ) (normal moveVec cubiePos : V3) : Move :=
  let rotationAxisVec := crossV3 normal moveVec
  let axis := (pickAxis rotationAxisVec).1
  let signRaw := jsSign (axisCompV3 axis rotationAxisVec)
  let sign := if signRaw = 0 then 1 else signRaw
  let offset := ((size : ℚ) - 1) / 2
  { axis := axis
    layer := round (axisCompV3 axis cubiePos + offset)
    direction := sign }

/-- The sticker assignment `isActive` of the render code, as the tuple
`(R, L, U, D, F, B)`: a face is stickered iff the corresponding initial
coordinate equals plus or minus the lattice limit `(size-1)/2`. -/
def isActiveFaces (size : ℕ) (c : Cubie) :
    Bool × Bool × Bool × Bool × Bool × Bool :=
  let offset := ((size : ℚ) - 1) / 2
  (decide (c.initialX = offset), decide (c.initialX = -offset),
   decide (c.initialY = offset), decide (c.initialY = -offset),
   decide (c.initialZ = offset), decide (c.initialZ = -offset))

/-- Exact lattice values for a given cube size: half-integers for even sizes,
integers for odd sizes. -/
def LatVal (size : ℕ) (v : ℚ) : Prop :=
  if size % 2 = 0 then ∃ n : ℤ, v = (n : ℚ) + 1 / 2 else ∃ n : ℤ, v = (n : ℚ)

/-- All three components of a triple are lattice values. -/
def Lat3 (size : ℕ) (p : ℚ × ℚ × ℚ) : Prop :=
  LatVal size p.1 ∧ LatVal size p.2.1 ∧ LatVal size p.2.2

/-- A piece whose current position is exactly on the lattice. -/
def LatCubie (size : ℕ) (c : Cubie) : Prop := Lat3 size (c.x, c.y, c.z)

/-- A piece store whose pieces are all exactly on the lattice. -/
def LatState (size : ℕ) (s : List Cubie) : Prop := ∀ c ∈ s, LatCubie size c

/-- The coordinate a slice test inspects, by axis. -/
def sliceCoord (a : Axis) (p : ℚ × ℚ × ℚ) : ℚ :=
  match a with
  | Axis.x => p.1
  | Axis.y => p.2.1
  | Axis.z => p.2.2

/-! ### Snapping lemmas -/

theorem round_int_add_small (z : ℤ) : round ((z : ℚ) + 1 / 1000) = z := by
  rw [add_comm, round_add_int, round_eq]
  norm_num

theorem snapCoord_lat (size : ℕ) (v : ℚ) : LatVal size (snapCoord size v) := by
  unfold LatVal snapCoord
  by_cases h : size % 2 = 0
  · rw [if_pos h, if_pos h]
    exact ⟨round (v - 1 / 2 + 1 / 1000), rfl⟩
  · rw [if_neg h, if_neg h]
    exact ⟨round (v + 1 / 1000), rfl⟩

theorem snapCoord_id {size : ℕ} {v : ℚ} (h : LatVal size v) :
    snapCoord size v = v := by
  unfold LatVal at h
  unfold snapCoord
  by_cases hp : size % 2 = 0
  · rw [if_pos hp] at h
    rw [if_pos hp]
    obtain ⟨n, rfl⟩ := h
    have e : (n : ℚ) + 1 / 2 - 1 / 2 + 1 / 1000 = (n : ℚ) + 1 / 1000 := by ring
    rw [e, round_int_add_small]
  · rw [if_neg hp] at h
    rw [if_neg hp]
    obtain ⟨n, rfl⟩ := h
    rw [round_int_add_small]

theorem snapCoord_idem (size : ℕ) (v : ℚ) :
    snapCoord size (snapCoord size v) = snapCoord size v :=
  snapCoord_id (snapCoord_lat size v)

theorem snapAngle_int_half (k : ℤ) :
    snapAngle ((k : ℚ) * (1 / 2)) = (k : ℚ) * (1 / 2) := by
  unfold snapAngle
  have e : ((k : ℚ) * (1 / 2)) / (1 / 2) = (k : ℚ) := by
    field_simp
  rw [e, round_intCast]

theorem snapAngle_idem (a : ℚ) : snapAngle (snapAngle a) = snapAngle a :=
  snapAngle_int_half (round (a / (1 / 2)))

/-- C2: the transform snapper is idempotent: for every piece transform
(position and Euler orientation), applying `snapTransform` twice yields
exactly the same result as applying it once, for the even-size
(half-integer) and odd-size (integer) position snap and for the Euler-angle
orientation snap alike. -/
theorem snapTransform_idempotent (size : ℕ) (t : PieceTransform) :
    snapTransform size (snapTransform size t) = snapTransform size t := by
  unfold snapTransform
  simp only [snapCoord_idem, snapAngle_idem]

/-! ### Lattice values -/

theorem latVal_neg {size : ℕ} {v : ℚ} (h : LatVal size v) :
    LatVal size (-v) := by
  unfold LatVal at h ⊢
  by_cases hp : size % 2 = 0
  · rw [if_pos hp] at h
    rw [if_pos hp]
    obtain ⟨n, rfl⟩ := h
    exact ⟨-(n + 1), by push_cast; ring⟩
  · rw [if_neg hp] at h
    rw [if_neg hp]
    obtain ⟨n, rfl⟩ := h
    exact ⟨-n, by push_cast; ring⟩

theorem latVal_gridPoint (size k : ℕ) :
    LatVal size ((k : ℚ) - ((size : ℚ) - 1) / 2) := by
  unfold LatVal
  by_cases hp : size % 2 = 0
  · rw [if_pos hp]
    obtain ⟨t, ht⟩ := Nat.dvd_of_mod_eq_zero hp
    refine ⟨(k : ℤ) - t, ?_⟩
    have hq : (size : ℚ) = 2 * (t : ℚ) := by exact_mod_cast ht
    rw [hq]
    push_cast
    ring
  · rw [if_neg hp]
    obtain ⟨t, ht⟩ : ∃ t : ℕ, size = 2 * t + 1 := ⟨size / 2, by omega⟩
    refine ⟨(k : ℤ) - (t : ℤ), ?_⟩
    have hq : (size : ℚ) = 2 * (t : ℚ) + 1 := by exact_mod_cast ht
    rw [hq]
    push_cast
    ring

theorem lat3_rotCoords {size : ℕ} (a : Axis) {d : ℤ} (hd : d = 1 ∨ d = -1)
    {p : ℚ × ℚ × ℚ} (hp : Lat3 size p) : Lat3 size (rotCoords a d p) := by
  obtain ⟨h1, h2, h3⟩ := hp
  rcases hd with rfl | rfl <;> cases a <;>
    refine ⟨?_, ?_, ?_⟩ <;>
    simp only [rotCoords, Int.cast_one, Int.cast_neg, neg_neg, one_mul,
      neg_mul, neg_neg, mul_neg] <;>
    first
      | exact h1 | exact h2 | exact h3
      | exact latVal_neg h1 | exact latVal_neg h2 | exact latVal_neg h3

theorem rotCoords_inv (a : Axis) {d : ℤ} (hd : d = 1 ∨ d = -1)
    (p : ℚ × ℚ × ℚ) : rotCoords a (d * -1) (rotCoords a d p) = p := by
  rcases hd with rfl | rfl <;> cases a <;>
    simp [rotCoords]

theorem sliceCoord_rotCoords (a : Axis) (d : ℤ) (p : ℚ × ℚ × ℚ) :
    sliceCoord a (rotCoords a d p) = sliceCoord a p := by
  cases a <;> rfl

/-! ### Committed moves -/

theorem lat3_commitPos (size : ℕ) (a : Axis) (d : ℤ) (p : ℚ × ℚ × ℚ) :
    Lat3 size (commitPos size a d p) :=
  ⟨snapCoord_lat _ _, snapCoord_lat _ _, snapCoord_lat _ _⟩

theorem commitPos_eq_rotCoords {size : ℕ} (a : Axis) {d : ℤ}
    (hd : d = 1 ∨ d = -1) {p : ℚ × ℚ × ℚ} (hp : Lat3 size p) :
    commitPos size a d p = rotCoords a d p := by
  obtain ⟨h1, h2, h3⟩ := lat3_rotCoords a hd hp
  simp only [commitPos]
  rw [snapCoord_id h1, snapCoord_id h2, snapCoord_id h3]

theorem commitPos_inv {size : ℕ} (a : Axis) {d : ℤ} (hd : d = 1 ∨ d = -1)
    {p : ℚ × ℚ × ℚ} (hp : Lat3 size p) :
    commitPos size a (d * -1) (commitPos size a d p) = p := by
  have hd2 : d * -1 = 1 ∨ d * -1 = -1 := by rcases hd with rfl | rfl <;> simp
  rw [commitPos_eq_rotCoords a hd hp,
    commitPos_eq_rotCoords a hd2 (lat3_rotCoords a hd hp),
    rotCoords_inv a hd]

theorem sliceCoord_commitPos (size : ℕ) (a : Axis) (d : ℤ) (p : ℚ × ℚ × ℚ) :
    sliceCoord a (commitPos size a d p) = snapCoord size (sliceCoord a p) := by
  cases a <;> simp [commitPos, sliceCoord, rotCoords]

theorem rotMat_inv (a : Axis) {d : ℤ} (hd : d = 1 ∨ d = -1) (q : M3) :
    M3.mul (rotMat a (d * -1)) (M3.mul (rotMat a d) q) = q := by
  obtain ⟨q00, q01, q02, q10, q11, q12, q20, q21, q22⟩ := q
  rcases hd with rfl | rfl <;> cases a <;>
    simp only [rotMat, M3.mul, M3.mk.injEq] <;>
    refine ⟨?_, ?_, ?_, ?_, ?_, ?_, ?_, ?_, ?_⟩ <;> ring

theorem inSlice_eq_sliceCoord (size : ℕ) (m : Move) (c : Cubie) :
    inSlice size m c =
      decide (|sliceCoord m.axis (c.x, c.y, c.z) -
        ((m.layer : ℚ) - ((size : ℚ) - 1) / 2)| < 1 / 4) := by
  obtain ⟨a, l, d⟩ := m
  cases a <;> rfl

theorem inSlice_negMove (size : ℕ) (m : Move) (c : Cubie) :
    inSlice size (negMove m) c = inSlice size m c := by
  obtain ⟨a, l, d⟩ := m
  cases a <;> rfl

theorem commitCubie_lat {size : ℕ} (m : Move) {c : Cubie}
    (hc : LatCubie size c) : LatCubie size (commitCubie size m c) := by
  unfold commitCubie
  by_cases hs : inSlice size m c = true
  · rw [if_pos hs]
    exact lat3_commitPos size m.axis m.direction (c.x, c.y, c.z)
  · rw [if_neg hs]
    exact hc

theorem commitCubie_of_inSlice {size : ℕ} {m : Move} {c : Cubie}
    (hs : inSlice size m c = true) :
    commitCubie size m c =
      { c with
        x := (commitPos size m.axis m.direction (c.x, c.y, c.z)).1,
        y := (commitPos size m.axis m.direction (c.x, c.y, c.z)).2.1,
        z := (commitPos size m.axis m.direction (c.x, c.y, c.z)).2.2,
        q := M3.mul (rotMat m.axis m.direction) c.q } := by
  unfold commitCubie
  rw [if_pos hs]

theorem commitCubie_of_not_inSlice {size : ℕ} {m : Move} {c : Cubie}
    (hs : ¬inSlice size m c = true) : commitCubie size m c = c := by
  unfold commitCubie
  rw [if_neg hs]

theorem latVal_sliceCoord {size : ℕ} {c : Cubie} (a : Axis)
    (hc : LatCubie size c) : LatVal size (sliceCoord a (c.x, c.y, c.z)) := by
  obtain ⟨l1, l2, l3⟩ := hc
  cases a
  · exact l1
  · exact l2
  · exact l3

theorem inSlice_commitCubie {size : ℕ} {m : Move} {c : Cubie}
    (hc : LatCubie size c) (hs : inSlice size m c = true) :
    inSlice size (negMove m) (commitCubie size m c) = true := by
  rw [inSlice_negMove, inSlice_eq_sliceCoord, commitCubie_of_inSlice hs]
  have hax := latVal_sliceCoord m.axis hc
  have hsl : sliceCoord m.axis
      ((commitPos size m.axis m.direction (c.x, c.y, c.z)).1,
        (commitPos size m.axis m.direction (c.x, c.y, c.z)).2.1,
        (commitPos size m.axis m.direction (c.x, c.y, c.z)).2.2) =
      sliceCoord m.axis (c.x, c.y, c.z) := by
    obtain ⟨a, l, d⟩ := m
    cases a <;>
      simpa [sliceCoord, commitPos, rotCoords] using snapCoord_id hax
  simp only [hsl]
  rw [← inSlice_eq_sliceCoord]
  exact hs

theorem commitCubie_inv {size : ℕ} (m : Move) {c : Cubie} (hd : WFMove m)
    (hc : LatCubie size c) :
    commitCubie size (negMove m) (commitCubie size m c) = c := by
  by_cases hs : inSlice size m c = true
  · have hsl := inSlice_commitCubie hc hs
    rw [commitCubie_of_inSlice hsl, commitCubie_of_inSlice hs]
    have hP := commitPos_inv m.axis hd hc
    have hq := rotMat_inv m.axis hd c.q
    obtain ⟨a, l, d⟩ := m
    obtain ⟨cid, cx, cy, cz, cix, ciy, ciz, cq⟩ := c
    simp only [negMove] at hP hq ⊢
    rw [mul_neg_one] at hP hq
    simp [hP, hq]
  · rw [commitCubie_of_not_inSlice hs]
    have hs2 : ¬inSlice size (negMove m) c = true := by
      rw [inSlice_negMove]
      exact hs
    rw [commitCubie_of_not_inSlice hs2]

/-! ### Move sequences and solve correctness -/

theorem applyMove_inv {size : ℕ} (m : Move) {s : List Cubie} (hd : WFMove m)
    (hs : LatState size s) :
    applyMove size (negMove m) (applyMove size m s) = s := by
  unfold applyMove
  rw [List.map_map]
  have h1 : s.map (commitCubie size (negMove m) ∘ commitCubie size m) =
      s.map id :=
    List.map_congr_left fun c hc => commitCubie_inv m hd (hs c hc)
  rw [h1, List.map_id]

theorem latState_applyMove {size : ℕ} (m : Move) {s : List Cubie}
    (hs : LatState size s) : LatState size (applyMove size m s) := by
  intro c hc
  obtain ⟨c0, hc0, rfl⟩ := List.mem_map.mp hc
  exact commitCubie_lat m (hs c0 hc0)

theorem latState_applyMoves {size : ℕ} (ms : List Move) {s : List Cubie}
    (hs : LatState size s) : LatState size (applyMoves size ms s) := by
  induction ms generalizing s with
  | nil => exact hs
  | cons m t ih => exact ih (latState_applyMove m hs)

theorem applyMoves_append (size : ℕ) (A B : List Move) (s : List Cubie) :
    applyMoves size (A ++ B) s = applyMoves size B (applyMoves size A s) := by
  unfold applyMoves
  rw [List.foldl_append]

theorem solve_unwinds {size : ℕ} (history : List Move) {s : List Cubie}
    (hwf : ∀ m ∈ history, WFMove m) (hs : LatState size s) :
    applyMoves size (handleSolveMoves history) (applyMoves size history s)
      = s := by
  induction history generalizing s with
  | nil => rfl
  | cons m t ih =>
    have e1 : handleSolveMoves (m :: t) =
        handleSolveMoves t ++ [negMove m] := by
      unfold handleSolveMoves
      rw [List.reverse_cons, List.map_append]
      rfl
    have e2 : applyMoves size (m :: t) s =
        applyMoves size t (applyMove size m s) := rfl
    rw [e1, e2, applyMoves_append,
      ih (fun x hx => hwf x (List.mem_cons_of_mem m hx))
        (latState_applyMove m hs)]
    exact applyMove_inv m (hwf m (List.mem_cons_self m t)) hs

theorem mem_surfaceCoords {size : ℕ} {p : ℚ × ℚ × ℚ}
    (h : p ∈ surfaceCoords size) :
    ∃ kx ky kz : ℕ, kx < size ∧ ky < size ∧ kz < size ∧
      p.1 = (kx : ℚ) - ((size : ℚ) - 1) / 2 ∧
      p.2.1 = (ky : ℚ) - ((size : ℚ) - 1) / 2 ∧
      p.2.2 = (kz : ℚ) - ((size : ℚ) - 1) / 2 := by
  unfold surfaceCoords at h
  rw [List.mem_flatMap] at h
  obtain ⟨kx, hkx, h⟩ := h
  rw [List.mem_flatMap] at h
  obtain ⟨ky, hky, h⟩ := h
  rw [List.mem_flatMap] at h
  obtain ⟨kz, hkz, h⟩ := h
  rw [List.mem_range] at hkx hky hkz
  refine ⟨kx, ky, kz, hkx, hky, hkz, ?_⟩
  simp only at h
  split at h
  · rw [List.mem_singleton] at h
    subst h
    exact ⟨rfl, rfl, rfl⟩
  · exact absurd h (List.not_mem_nil p)

theorem mem_initialCubies {size : ℕ} {c : Cubie}
    (h : c ∈ initialCubies size) :
    c.initialX = c.x ∧ c.initialY = c.y ∧ c.initialZ = c.z ∧ c.q = idM3 ∧
      ∃ kx ky kz : ℕ, kx < size ∧ ky < size ∧ kz < size ∧
        c.x = (kx : ℚ) - ((size : ℚ) - 1) / 2 ∧
        c.y = (ky : ℚ) - ((size : ℚ) - 1) / 2 ∧
        c.z = (kz : ℚ) - ((size : ℚ) - 1) / 2 := by
  unfold initialCubies at h
  obtain ⟨⟨i, p⟩, hip, rfl⟩ := List.mem_map.mp h
  have hp : p ∈ surfaceCoords size := by
    have h2 := List.mem_map_of_mem Prod.snd hip
    rwa [List.enum_map_snd] at h2
  obtain ⟨kx, ky, kz, h1, h2, h3, e1, e2, e3⟩ := mem_surfaceCoords hp
  exact ⟨rfl, rfl, rfl, rfl, kx, ky, kz, h1, h2, h3, e1, e2, e3⟩

theorem latState_initialCubies (size : ℕ) :
    LatState size (initialCubies size) := by
  intro c hc
  obtain ⟨_, _, _, _, kx, ky, kz, _, _, _, e1, e2, e3⟩ :=
    mem_initialCubies hc
  exact ⟨e1 ▸ latVal_gridPoint size kx, e2 ▸ latVal_gridPoint size ky,
    e3 ▸ latVal_gridPoint size kz⟩

/-- C1: for every history of committed moves starting from the solved state,
executing the solve-generated queue (the history reversed, with every move
direction negated) against the post-history cube state returns every piece to
its initial coordinates with identity orientation, exactly. -/
theorem solve_history_inversion_restores_solved (size : ℕ)
    (history : List Move) (hwf : ∀ m ∈ history, WFMove m) :
    applyMoves size (handleSolveMoves history)
        (applyMoves size history (initialCubies size)) = initialCubies size ∧
      ∀ c ∈ applyMoves size (handleSolveMoves history)
          (applyMoves size history (initialCubies size)),
        c.x = c.initialX ∧ c.y = c.initialY ∧ c.z = c.initialZ ∧
          c.q = idM3 := by
  have e := solve_unwinds history hwf (latState_initialCubies size)
  refine ⟨e, ?_⟩
  rw [e]
  intro c hc
  obtain ⟨h1, h2, h3, h4, _⟩ := mem_initialCubies hc
  exact ⟨h1.symm, h2.symm, h3.symm, h4⟩

/-- Witness for C1 at size 2 with the single-move history
`[{axis := x, layer := 0, direction := 1}]`. -/
theorem solve_history_inversion_restores_solved_witness :
    (∀ m ∈ [Move.mk Axis.x 0 1], WFMove m) ∧
      (applyMoves 2 (handleSolveMoves [Move.mk Axis.x 0 1])
          (applyMoves 2 [Move.mk Axis.x 0 1] (initialCubies 2)) =
            initialCubies 2 ∧
        ∀ c ∈ applyMoves 2 (handleSolveMoves [Move.mk Axis.x 0 1])
            (applyMoves 2 [Move.mk Axis.x 0 1] (initialCubies 2)),
          c.x = c.initialX ∧ c.y = c.initialY ∧ c.z = c.initialZ ∧
            c.q = idM3) := by
  have hwf : ∀ m ∈ [Move.mk Axis.x 0 1], WFMove m := by
    intro m hm
    rw [List.mem_singleton] at hm
    subst hm
    exact Or.inl rfl
  exact ⟨hwf,
    solve_history_inversion_restores_solved 2 [Move.mk Axis.x 0 1] hwf⟩

/-! ### Quarter-turn exactness -/

theorem rotMat_mul_mem_rot24 (a : Axis) {d : ℤ} (hd : d = 1 ∨ d = -1) :
    ∀ q ∈ rot24, M3.mul (rotMat a d) q ∈ rot24 := by
  rcases hd with rfl | rfl <;> cases a <;> decide

theorem commitCubie_q_mem_rot24 {size : ℕ} (m : Move) {c : Cubie}
    (hd : WFMove m) (hq : c.q ∈ rot24) :
    (commitCubie size m c).q ∈ rot24 := by
  by_cases hs : inSlice size m c = true
  · rw [commitCubie_of_inSlice hs]
    exact rotMat_mul_mem_rot24 m.axis hd c.q hq
  · rw [commitCubie_of_not_inSlice hs]
    exact hq

/-- C3: for every committed move, regardless of how far the per-frame
progress overshoots the quarter turn, the commit applies exactly a quarter
turn: the pivot rotation is forced to exactly `(π/2)·direction` (here in
units of π: `(1/2)·direction`), and afterwards every previously
lattice-aligned piece's position is again exactly lattice-aligned and its
orientation is exactly one of the 24 axis-aligned cube rotations. -/
theorem commit_is_exact_quarter_turn (size : ℕ) (m : Move) (c : Cubie)
    (progress : ℚ) (hp : progress ≥ 1 / 2) (hwf : WFMove m)
    (hc : LatCubie size c) (hq : c.q ∈ rot24) :
    frameRotation progress m.direction = (1 / 2) * (m.direction : ℚ) ∧
      LatCubie size (commitCubie size m c) ∧
      (commitCubie size m c).q ∈ rot24 := by
  refine ⟨?_, commitCubie_lat m hc, commitCubie_q_mem_rot24 m hwf hq⟩
  unfold frameRotation
  rw [if_pos hp]

/-- Witness for C3: size 2, the move `{axis := x, layer := 0, direction := 1}`
applied to a lattice-aligned piece with identity orientation, with the frame
progress overshooting to 1 (in units of π). -/
theorem commit_is_exact_quarter_turn_witness :
    ((1 : ℚ) ≥ 1 / 2) ∧ WFMove (Move.mk Axis.x 0 1) ∧
      LatCubie 2 (mkCubie 0 (1 / 2, 1 / 2, 1 / 2)) ∧
      (mkCubie 0 (1 / 2, 1 / 2, 1 / 2)).q ∈ rot24 ∧
      (frameRotation 1 (Move.mk Axis.x 0 1).direction =
          (1 / 2) * ((Move.mk Axis.x 0 1).direction : ℚ) ∧
        LatCubie 2 (commitCubie 2 (Move.mk Axis.x 0 1)
          (mkCubie 0 (1 / 2, 1 / 2, 1 / 2))) ∧
        (commitCubie 2 (Move.mk Axis.x 0 1)
          (mkCubie 0 (1 / 2, 1 / 2, 1 / 2))).q ∈ rot24) := by
  have hp : (1 : ℚ) ≥ 1 / 2 := by norm_num
  have hwf : WFMove (Move.mk Axis.x 0 1) := Or.inl rfl
  have hval : LatVal 2 ((1 : ℚ) / 2) := by
    unfold LatVal
    rw [if_pos (by norm_num : 2 % 2 = 0)]
    exact ⟨0, by norm_num⟩
  have hc : LatCubie 2 (mkCubie 0 (1 / 2, 1 / 2, 1 / 2)) :=
    ⟨hval, hval, hval⟩
  have hq : (mkCubie 0 (1 / 2, 1 / 2, 1 / 2)).q ∈ rot24 := by decide
  exact ⟨hp, hwf, hc, hq,
    commit_is_exact_quarter_turn 2 (Move.mk Axis.x 0 1)
      (mkCubie 0 (1 / 2, 1 / 2, 1 / 2)) 1 hp hwf hc hq⟩

/-! ### Degenerate moves, input rejection, shuffle bookkeeping -/

/-- C6: when the slice selector finds zero pieces for a move, the move
completes instantly without committing any transform change, and the
completion callback still pops the queue, so the queue consumer is never
stuck. -/
theorem degenerate_move_skips_commit_and_completes (size : ℕ)
    (cubies : List Cubie) (m : Move) (rest : List Move)
    (h : cubies.filter (fun c => inSlice size m c) = []) :
    runQueuedMove size cubies (m :: rest) = (cubies, rest) := by
  show (if (cubies.filter fun c => inSlice size m c).length = 0
      then (cubies, rest) else (applyMove size m cubies, rest)) =
    (cubies, rest)
  rw [h]
  rfl

/-- Witness for C6: a ghost move on layer 5 of a size-2 cube selects no
pieces, so the piece it is shown against is untouched and the queue advances. -/
theorem degenerate_move_skips_commit_and_completes_witness :
    ([mkCubie 0 (1 / 2, 1 / 2, 1 / 2)].filter
        (fun c => inSlice 2 (Move.mk Axis.x 5 1) c) = []) ∧
      runQueuedMove 2 [mkCubie 0 (1 / 2, 1 / 2, 1 / 2)]
          [Move.mk Axis.x 5 1] =
        ([mkCubie 0 (1 / 2, 1 / 2, 1 / 2)], []) := by
  have h : [mkCubie 0 (1 / 2, 1 / 2, 1 / 2)].filter
      (fun c => inSlice 2 (Move.mk Axis.x 5 1) c) = [] := by
    rw [List.filter_eq_nil_iff]
    intro c hc
    rw [List.mem_singleton] at hc
    subst hc
    simp only [inSlice, mkCubie, decide_eq_true_eq]
    rw [abs_lt]
    push_neg
    intro h1
    norm_num at h1
  exact ⟨h,
    degenerate_move_skips_commit_and_completes 2
      [mkCubie 0 (1 / 2, 1 / 2, 1 / 2)] (Move.mk Axis.x 5 1) [] h⟩

/-- C7: while the engine is busy (a turn animating keeps the in-flight move
at the queue head until the completion callback pops it, so the queue is
non-empty) a submitted manual move is ignored: neither the queue nor the
history changes. -/
theorem manual_move_rejected_while_busy (st : AppState) (move : Move)
    (h : st.moveQueue ≠ []) :
    (handleDirectMove st move).moveQueue = st.moveQueue ∧
      (handleDirectMove st move).history = st.history := by
  have e : handleDirectMove st move = st := by
    unfold handleDirectMove
    rw [if_pos (Or.inr (List.length_pos.mpr h))]
  rw [e]
  exact ⟨rfl, rfl⟩

/-- Witness for C7: a state with one queued move declines a manual move. -/
theorem manual_move_rejected_while_busy_witness :
    ((AppState.mk [Move.mk Axis.x 0 1] [] false none).moveQueue ≠ []) ∧
      ((handleDirectMove (AppState.mk [Move.mk Axis.x 0 1] [] false none)
          (Move.mk Axis.y 1 1)).moveQueue =
        (AppState.mk [Move.mk Axis.x 0 1] [] false none).moveQueue ∧
      (handleDirectMove (AppState.mk [Move.mk Axis.x 0 1] [] false none)
          (Move.mk Axis.y 1 1)).history =
        (AppState.mk [Move.mk Axis.x 0 1] [] false none).history) := by
  have h : (AppState.mk [Move.mk Axis.x 0 1] [] false none).moveQueue ≠ [] := by
    simp
  exact ⟨h,
    manual_move_rejected_while_busy
      (AppState.mk [Move.mk Axis.x 0 1] [] false none) (Move.mk Axis.y 1 1) h⟩

/-- C10: a shuffle that proceeds (the queue is empty, which the shuffle guard
enforces) appends the exact same generated move list, in identical order, to
both the move queue and the history. -/
theorem shuffle_appends_same_moves_to_queue_and_history (cubeSize : ℕ)
    (rand : ℕ → ℚ) (st : AppState) (h : st.moveQueue = []) :
    (handleShuffle cubeSize rand st).moveQueue =
        st.moveQueue ++ shuffleMoves cubeSize rand ∧
      (handleShuffle cubeSize rand st).history =
        st.history ++ shuffleMoves cubeSize rand := by
  unfold handleShuffle
  rw [if_neg (by rw [h]; simp)]
  exact ⟨rfl, rfl⟩

/-- Witness for C10 on an idle state. -/
theorem shuffle_appends_same_moves_to_queue_and_history_witness :
    ((AppState.mk [] [] false none).moveQueue = []) ∧
      ((handleShuffle 2 (fun _ => 0) (AppState.mk [] [] false none)).moveQueue =
        (AppState.mk [] [] false none).moveQueue ++ shuffleMoves 2 (fun _ => 0) ∧
      (handleShuffle 2 (fun _ => 0) (AppState.mk [] [] false none)).history =
        (AppState.mk [] [] false none).history ++ shuffleMoves 2 (fun _ => 0)) :=
  ⟨rfl, shuffle_appends_same_moves_to_queue_and_history 2 (fun _ => 0)
    (AppState.mk [] [] false none) rfl⟩

/-! ### Color permanence -/

theorem commitCubie_preserves_initial (size : ℕ) (m : Move) (c : Cubie) :
    (commitCubie size m c).id = c.id ∧
      (commitCubie size m c).initialX = c.initialX ∧
      (commitCubie size m c).initialY = c.initialY ∧
      (commitCubie size m c).initialZ = c.initialZ := by
  unfold commitCubie
  split
  · exact ⟨rfl, rfl, rfl, rfl⟩
  · exact ⟨rfl, rfl, rfl, rfl⟩

/-- C8: a piece's id, initial coordinates, and set of active sticker faces
(true per face iff the corresponding initial coordinate equals plus or minus
the lattice limit) are invariant across any sequence of committed moves: a
commit mutates only the current coordinates and the orientation. -/
theorem color_permanence (size : ℕ) (moves : List Move) (s : List Cubie) :
    (applyMoves size moves s).map
        (fun c => (c.id, c.initialX, c.initialY, c.initialZ,
          isActiveFaces size c)) =
      s.map (fun c => (c.id, c.initialX, c.initialY, c.initialZ,
        isActiveFaces size c)) := by
  induction moves generalizing s with
  | nil => rfl
  | cons m t ih =>
    have e : applyMoves size (m :: t) s =
        applyMoves size t (applyMove size m s) := rfl
    rw [e, ih]
    unfold applyMove
    rw [List.map_map]
    refine List.map_congr_left fun c _ => ?_
    obtain ⟨h1, h2, h3, h4⟩ := commitCubie_preserves_initial size m c
    simp only [Function.comp_apply, h1, h2, h3, h4, isActiveFaces]

/-! ### Shuffle generation -/

theorem axisOfIndex_cases (n : ℤ) :
    axisOfIndex n = Axis.x ∨ axisOfIndex n = Axis.y ∨
      axisOfIndex n = Axis.z := by
  unfold axisOfIndex
  split
  · exact Or.inl rfl
  · exact Or.inr (Or.inl rfl)
  · exact Or.inr (Or.inr rfl)

/-- Counterexample to C5 as stated: at cube size 2 a shuffle generates
`max 25 (2·2) = 25` moves, not 2. -/
theorem shuffle_count_is_25_not_N :
    (shuffleMoves 2 (fun _ => 0)).length = 25 ∧
      (shuffleMoves 2 (fun _ => 0)).length ≠ 2 := by
  have h : (shuffleMoves 2 (fun _ => 0)).length = 25 := by
    unfold shuffleMoves shuffleCount
    rw [List.length_map, List.length_range]
    omega
  exact ⟨h, by rw [h]; omega⟩

/-- C5 (amended): for every cube size, a shuffle invocation generates exactly
`max 25 (2·size)` moves (25 for every supported size 2–10); when the random
samples lie in `[0,1)`, every generated move has its axis indexed from
`{x,y,z}` by `⌊3r⌋`, its layer equal to `⌊size·r⌋ ∈ [0, size)`, and its
direction `+1` exactly when `r > 1/2`, else `-1`. -/
theorem shuffle_generates_bulk_moves (cubeSize : ℕ) (rand : ℕ → ℚ)
    (hsize : 0 < cubeSize) (hr : ∀ i, 0 ≤ rand i ∧ rand i < 1) :
    (shuffleMoves cubeSize rand).length = max 25 (cubeSize * 2) ∧
      ∀ m ∈ shuffleMoves cubeSize rand,
        (m.axis = Axis.x ∨ m.axis = Axis.y ∨ m.axis = Axis.z) ∧
          0 ≤ m.layer ∧ m.layer < (cubeSize : ℤ) ∧
          (m.direction = 1 ∨ m.direction = -1) := by
  constructor
  · unfold shuffleMoves shuffleCount
    rw [List.length_map, List.length_range]
  · intro m hm
    unfold shuffleMoves at hm
    obtain ⟨i, _, rfl⟩ := List.mem_map.mp hm
    have hq : (0 : ℚ) < (cubeSize : ℚ) := by exact_mod_cast hsize
    obtain ⟨h0, h1⟩ := hr (3 * i + 1)
    refine ⟨axisOfIndex_cases _, ?_, ?_, ?_⟩
    · show (0 : ℤ) ≤ ⌊rand (3 * i + 1) * (cubeSize : ℚ)⌋
      rw [Int.le_floor]
      push_cast
      exact mul_nonneg h0 (le_of_lt hq)
    · show ⌊rand (3 * i + 1) * (cubeSize : ℚ)⌋ < (cubeSize : ℤ)
      rw [Int.floor_lt]
      push_cast
      calc rand (3 * i + 1) * (cubeSize : ℚ)
          < 1 * (cubeSize : ℚ) := by
            exact mul_lt_mul_of_pos_right h1 hq
        _ = (cubeSize : ℚ) := one_mul _
    · show (if rand (3 * i + 2) > 1 / 2 then (1 : ℤ) else -1) = 1 ∨
        (if rand (3 * i + 2) > 1 / 2 then (1 : ℤ) else -1) = -1
      split
      · exact Or.inl rfl
      · exact Or.inr rfl

/-- Witness for C5 (amended) at size 2 with the constant-zero sample
stream. -/
theorem shuffle_generates_bulk_moves_witness :
    (0 < 2) ∧ (∀ i : ℕ, 0 ≤ (fun _ : ℕ => (0 : ℚ)) i ∧
        (fun _ : ℕ => (0 : ℚ)) i < 1) ∧
      ((shuffleMoves 2 (fun _ => 0)).length = max 25 (2 * 2) ∧
        ∀ m ∈ shuffleMoves 2 (fun _ => 0),
          (m.axis = Axis.x ∨ m.axis = Axis.y ∨ m.axis = Axis.z) ∧
            0 ≤ m.layer ∧ m.layer < (2 : ℤ) ∧
            (m.direction = 1 ∨ m.direction = -1)) := by
  have hr : ∀ i : ℕ, 0 ≤ (fun _ : ℕ => (0 : ℚ)) i ∧
      (fun _ : ℕ => (0 : ℚ)) i < 1 := fun i => ⟨le_refl 0, by norm_num⟩
  exact ⟨by norm_num, hr,
    shuffle_generates_bulk_moves 2 (fun _ => 0) (by norm_num) hr⟩

/-! ### Gesture translation -/

theorem pickAxis_spec (r : V3) :
    |axisCompV3 (pickAxis r).1 r| = max |r.vx| (max |r.vy| |r.vz|) := by
  have hx := abs_nonneg r.vx
  have hy := abs_nonneg r.vy
  have hz := abs_nonneg r.vz
  simp only [pickAxis, apply_ite Prod.snd, apply_ite Prod.fst]
  split_ifs <;>
    simp only [axisCompV3] <;>
    rw [max_def, max_def] <;>
    split_ifs <;>
    linarith

theorem jsSign_default_one (v : ℚ) :
    (if jsSign v = 0 then (1 : ℤ) else jsSign v) =
      (if 0 < v then (1 : ℤ) else if v < 0 then -1 else 1) := by
  unfold jsSign
  split_ifs <;>
    first
      | rfl
      | omega
      | linarith
      | exact (by assumption : False).elim

/-- C9: for every selection (world-space face normal and piece coordinate)
and camera-relative intended swipe vector, the gesture translator produces
the move whose axis carries the largest-magnitude component of the cross
product of the normal and the swipe vector, whose direction is the sign of
that component with a zero component defaulting to `+1`, and whose layer is
the piece's coordinate along that axis plus the lattice offset, rounded to
the nearest integer. -/
theorem gesture_translation_spec (size : ℕ) (normal moveVec cubiePos : V3) :
    |axisCompV3 (handleArrowClickMove size normal moveVec cubiePos).axis
        (crossV3 normal moveVec)| =
      max |(crossV3 normal moveVec).vx|
        (max |(crossV3 normal moveVec).vy| |(crossV3 normal moveVec).vz|) ∧
      (handleArrowClickMove size normal moveVec cubiePos).direction =
        (if 0 < axisCompV3 (handleArrowClickMove size normal moveVec
            cubiePos).axis (crossV3 normal moveVec) then (1 : ℤ)
         else if axisCompV3 (handleArrowClickMove size normal moveVec
            cubiePos).axis (crossV3 normal moveVec) < 0 then -1 else 1) ∧
      (handleArrowClickMove size normal moveVec cubiePos).layer =
        round (axisCompV3 (handleArrowClickMove size normal moveVec
          cubiePos).axis cubiePos + ((size : ℚ) - 1) / 2) := by
  refine ⟨pickAxis_spec (crossV3 normal moveVec), ?_, rfl⟩
  exact jsSign_default_one
    (axisCompV3 ((pickAxis (crossV3 normal moveVec)).1) (crossV3 normal moveVec))

/-! ### Top-layer slice counting -/

theorem countP_flatMap {α β : Type} (p : β → Bool) (f : α → List β)
    (l : List α) :
    List.countP p (l.flatMap f) = (l.map fun a => List.countP p (f a)).sum := by
  induction l with
  | nil => rfl
  | cons a t ih =>
    rw [List.flatMap_cons, List.countP_append, ih, List.map_cons,
      List.sum_cons]

theorem countP_ite_singleton {α : Type} (p : α → Bool) (c : Prop)
    [Decidable c] (a : α) :
    List.countP p (if c then [a] else []) =
      if c then (if p a then 1 else 0) else 0 := by
  split
  · rw [List.countP_cons, List.countP_nil]
    split <;> simp_all
  · rfl

theorem sum_map_range_single {g : ℕ → ℕ} {n m : ℕ} (hm : m < n)
    (hg : ∀ y, y ≠ m → g y = 0) :
    ((List.range n).map g).sum = g m := by
  induction n with
  | zero => omega
  | succ k ih =>
    rw [List.range_succ, List.map_append, List.sum_append]
    by_cases hk : m = k
    · subst hk
      have h0 : ((List.range m).map g).sum = 0 := by
        apply List.sum_eq_zero
        intro v hv
        simp only [List.mem_map, List.mem_range] at hv
        obtain ⟨y, hy, rfl⟩ := hv
        exact hg y (by omega)
      rw [h0]
      simp
    · rw [ih (by omega)]
      have hgk : g k = 0 := hg k (by omega)
      simp [hgk]

theorem sum_map_range_const (n c : ℕ) :
    ((List.range n).map fun _ => c).sum = n * c := by
  rw [show (fun _ : ℕ => c) = Function.const ℕ c from rfl, List.map_const,
    List.sum_replicate, List.length_range, smul_eq_mul]

theorem int_eq_zero_of_cast_abs_lt_quarter {z : ℤ} (h : |(z : ℚ)| < 1 / 4) :
    z = 0 := by
  by_contra hz
  have h1 : (1 : ℤ) ≤ |z| := Int.one_le_abs hz
  have h2 : ((1 : ℤ) : ℚ) ≤ ((|z| : ℤ) : ℚ) := by exact_mod_cast h1
  rw [Int.cast_abs] at h2
  norm_num at h2
  linarith [abs_nonneg ((z : ℚ))]

theorem isSurface_top_row {size kx ky kz : ℕ} (h : ky + 1 = size) :
    isSurface ((kx : ℚ) - ((size : ℚ) - 1) / 2)
      ((ky : ℚ) - ((size : ℚ) - 1) / 2)
      ((kz : ℚ) - ((size : ℚ) - 1) / 2) size = true := by
  unfold isSurface
  simp only [Bool.or_eq_true, decide_eq_true_eq]
  refine Or.inl (Or.inr ?_)
  have hy : (ky : ℚ) = (size : ℚ) - 1 := by
    have : (ky : ℚ) + 1 = (size : ℚ) := by exact_mod_cast h
    linarith
  have hsize1 : (1 : ℚ) ≤ (size : ℚ) := by
    have : (1 : ℕ) ≤ size := by omega
    exact_mod_cast this
  have hval : (ky : ℚ) - ((size : ℚ) - 1) / 2 = ((size : ℚ) - 1) / 2 := by
    rw [hy]
    ring
  rw [hval]
  have hinner : |((size : ℚ) - 1) / 2| = ((size : ℚ) - 1) / 2 :=
    abs_of_nonneg (by linarith)
  rw [hinner, sub_self, abs_zero]
  norm_num

theorem top_slice_test_iff (size ky : ℕ) :
    (decide (|((ky : ℚ) - ((size : ℚ) - 1) / 2) -
        (((((size : ℤ) - 1 : ℤ)) : ℚ) - ((size : ℚ) - 1) / 2)| < 1 / 4)
      = true) ↔ ky + 1 = size := by
  rw [decide_eq_true_eq]
  have e : ((ky : ℚ) - ((size : ℚ) - 1) / 2) -
      (((((size : ℤ) - 1 : ℤ)) : ℚ) - ((size : ℚ) - 1) / 2) =
      (((ky : ℤ) - ((size : ℤ) - 1) : ℤ) : ℚ) := by
    push_cast
    ring
  rw [e]
  constructor
  · intro h
    have h0 := int_eq_zero_of_cast_abs_lt_quarter h
    omega
  · intro h
    have h0 : (ky : ℤ) - ((size : ℤ) - 1) = 0 := by omega
    rw [h0]
    norm_num

theorem top_layer_countP (size : ℕ) :
    List.countP (fun c => inSlice size (Move.mk Axis.y ((size : ℤ) - 1) 1) c)
      (initialCubies size) = size * size := by
  unfold initialCubies
  rw [List.countP_map]
  have e1 : List.countP
      ((fun c => inSlice size (Move.mk Axis.y ((size : ℤ) - 1) 1) c) ∘
        fun ip : ℕ × (ℚ × ℚ × ℚ) => mkCubie ip.1 ip.2)
      (surfaceCoords size).enum =
      List.countP
        (fun pr : ℚ × ℚ × ℚ =>
          decide (|pr.2.1 -
            (((((size : ℤ) - 1 : ℤ)) : ℚ) - ((size : ℚ) - 1) / 2)| < 1 / 4))
        (surfaceCoords size) := by
    have ha : List.countP
        ((fun c => inSlice size (Move.mk Axis.y ((size : ℤ) - 1) 1) c) ∘
          fun ip : ℕ × (ℚ × ℚ × ℚ) => mkCubie ip.1 ip.2)
        (surfaceCoords size).enum =
        List.countP
          ((fun pr : ℚ × ℚ × ℚ =>
            decide (|pr.2.1 -
              (((((size : ℤ) - 1 : ℤ)) : ℚ) - ((size : ℚ) - 1) / 2)| < 1 / 4))
            ∘ Prod.snd)
          (surfaceCoords size).enum :=
      List.countP_congr (fun ip _ => Iff.rfl)
    have hb := List.countP_map
      (fun pr : ℚ × ℚ × ℚ =>
        decide (|pr.2.1 -
          (((((size : ℤ) - 1 : ℤ)) : ℚ) - ((size : ℚ) - 1) / 2)| < 1 / 4))
      Prod.snd (surfaceCoords size).enum
    rw [List.enum_map_snd] at hb
    rw [ha, ← hb]
  rw [e1]
  rcases Nat.eq_zero_or_pos size with h0 | hpos
  · subst h0
    rfl
  unfold surfaceCoords
  rw [countP_flatMap]
  have houter : List.map
      (fun kx : ℕ => List.countP
        (fun pr : ℚ × ℚ × ℚ =>
          decide (|pr.2.1 -
            (((((size : ℤ) - 1 : ℤ)) : ℚ) - ((size : ℚ) - 1) / 2)| < 1 / 4))
        ((List.range size).flatMap fun ky : ℕ =>
          (List.range size).flatMap fun kz : ℕ =>
            let offset := ((size : ℚ) - 1) / 2
            let lx := (kx : ℚ) - offset
            let ly := (ky : ℚ) - offset
            let lz := (kz : ℚ) - offset
            if isSurface lx ly lz size then [(lx, ly, lz)] else []))
      (List.range size) =
      List.map (fun _ : ℕ => size) (List.range size) := by
    apply List.map_congr_left
    intro kx _
    rw [countP_flatMap]
    have hmid : List.map
        (fun ky : ℕ => List.countP
          (fun pr : ℚ × ℚ × ℚ =>
            decide (|pr.2.1 -
              (((((size : ℤ) - 1 : ℤ)) : ℚ) - ((size : ℚ) - 1) / 2)| < 1 / 4))
          ((List.range size).flatMap fun kz : ℕ =>
            let offset := ((size : ℚ) - 1) / 2
            let lx := (kx : ℚ) - offset
            let ly := (ky : ℚ) - offset
            let lz := (kz : ℚ) - offset
            if isSurface lx ly lz size then [(lx, ly, lz)] else []))
        (List.range size) =
        List.map (fun ky : ℕ => if ky + 1 = size then size else 0)
          (List.range size) := by
      apply List.map_congr_left
      intro ky _
      rw [countP_flatMap]
      have hz : List.map
          (fun kz : ℕ => List.countP
            (fun pr : ℚ × ℚ × ℚ =>
              decide (|pr.2.1 -
                (((((size : ℤ) - 1 : ℤ)) : ℚ) -
                  ((size : ℚ) - 1) / 2)| < 1 / 4))
            (let offset := ((size : ℚ) - 1) / 2
             let lx := (kx : ℚ) - offset
             let ly := (ky : ℚ) - offset
             let lz := (kz : ℚ) - offset
             if isSurface lx ly lz size then [(lx, ly, lz)] else []))
          (List.range size) =
          List.map (fun _ : ℕ => if ky + 1 = size then 1 else 0)
            (List.range size) := by
        apply List.map_congr_left
        intro kz _
        simp only [countP_ite_singleton]
        by_cases hc : ky + 1 = size
        · rw [if_pos (isSurface_top_row hc),
            if_pos ((top_slice_test_iff size ky).mpr hc), if_pos hc]
        · have hq : ¬(decide (|((ky : ℚ) - ((size : ℚ) - 1) / 2) -
              (((((size : ℤ) - 1 : ℤ)) : ℚ) -
                ((size : ℚ) - 1) / 2)| < 1 / 4) = true) :=
            fun hq => hc ((top_slice_test_iff size ky).mp hq)
          rw [if_neg hc, if_neg hq, ite_self]
      rw [hz, sum_map_range_const]
      by_cases hc : ky + 1 = size
      · rw [if_pos hc, if_pos hc, mul_one]
      · rw [if_neg hc, if_neg hc, mul_zero]
    rw [hmid]
    rw [sum_map_range_single (show size - 1 < size by omega)
      (fun y hy => by rw [if_neg (show ¬(y + 1 = size) by omega)])]
    rw [if_pos (show size - 1 + 1 = size by omega)]
  rw [houter, sum_map_range_const]

/-- Counterexample to C4 as stated: on a solved size-10 cube, the move
`{axis := y, layer := 9, direction := 1}` selects 100 pieces (the whole
10×10 top layer is made of surface pieces), not 36. -/
theorem top_layer_count_is_100_not_36 :
    ((initialCubies 10).filter
        (fun c => inSlice 10 (Move.mk Axis.y 9 1) c)).length = 100 ∧
      (100 : ℕ) ≠ 36 := by
  have h := top_layer_countP 10
  rw [List.countP_eq_length_filter] at h
  norm_num at h
  exact ⟨h, by omega⟩

/-- C4 (amended): on a solved cube of size N, the move
`{axis := y, layer := N-1, direction := 1}` selects exactly the pieces whose
current y-coordinate equals `(N-1)/2`; for N = 10 the number of selected
pieces is 100 — the full 10×10 top layer, every piece of which is a surface
piece. -/
theorem top_layer_selects_full_layer :
    (∀ size : ℕ,
      (initialCubies size).filter
          (fun c => inSlice size (Move.mk Axis.y ((size : ℤ) - 1) 1) c) =
        (initialCubies size).filter
          (fun c => decide (c.y = ((size : ℚ) - 1) / 2))) ∧
      ((initialCubies 10).filter
        (fun c => inSlice 10 (Move.mk Axis.y 9 1) c)).length = 100 := by
  constructor
  · intro size
    apply List.filter_congr
    intro c hc
    obtain ⟨_, _, _, _, kx, ky, kz, _, hky, _, _, ey, _⟩ :=
      mem_initialCubies hc
    have e2 : inSlice size (Move.mk Axis.y ((size : ℤ) - 1) 1) c =
        decide (|c.y -
          (((((size : ℤ) - 1 : ℤ)) : ℚ) - ((size : ℚ) - 1) / 2)| < 1 / 4) :=
      rfl
    rw [e2, ey]
    have hiff := top_slice_test_iff size ky
    rw [decide_eq_true_eq] at hiff
    have hQ : ((ky : ℚ) - ((size : ℚ) - 1) / 2 = ((size : ℚ) - 1) / 2) ↔
        ky + 1 = size := by
      constructor
      · intro h
        have h1 : ((ky : ℤ) : ℚ) = (((size : ℤ) - 1 : ℤ) : ℚ) := by
          push_cast
          linarith
        have h2 : (ky : ℤ) = (size : ℤ) - 1 := by exact_mod_cast h1
        omega
      · intro h
        have h1 : (ky : ℚ) + 1 = (size : ℚ) := by exact_mod_cast h
        linarith
    exact decide_eq_decide.mpr (hiff.trans hQ.symm)
  · have h := top_layer_countP 10
    rw [List.countP_eq_length_filter] at h
    norm_num at h
    exact h
